import Mathlib

/-!
Verification of the parasol schema-reconciliation and bulk-indexing core.

The Python sources are embedded shallowly:

* Python dicts become association lists (`PyDict`) with insertion-order
  preserving update (`pyDictSet`), deletion (`pyDictDel`) and lookup
  (`pyDictGet`), matching CPython dict semantics for string keys.
* `parasol/schema.py` (`SolrField`, `SolrFieldType`, `SolrSchema`) becomes
  pure functions from the declared configuration and the remote listing to a
  `Stats` record plus the trace of remote schema calls issued.
* `parasol/solr/update.py` (`Update`) becomes a pure function from the
  handler state and arguments to the request actually sent plus the state
  after the call.
* `parasol/indexing.py` is not among the provided sources (only its test
  suite is), so the chunked bulk-indexing loop is modelled from the spec.
-/

namespace Parasol

/-- Python-style dictionary with string keys: an association list in
insertion order, keys unique by construction of the operations below. -/
abbrev PyDict (β : Type) := List (String × β)

/-- Lookup of a key, returning the first (unique) binding if present. -/
def pyDictGet {β : Type} (d : PyDict β) (k : String) : Option β :=
  (d.find? (fun p => p.1 = k)).map Prod.snd

/-- Python `k in d` membership test. -/
def pyDictContains {β : Type} (d : PyDict β) (k : String) : Bool :=
  d.any (fun p => p.1 = k)

/-- Python `d[k] = v`: overwrite in place when the key exists (keeping its
position, as CPython dicts do), otherwise append the new binding. -/
def pyDictSet {β : Type} (d : PyDict β) (k : String) (v : β) : PyDict β :=
  if pyDictContains d k then d.map (fun p => if p.1 = k then (k, v) else p)
  else d ++ [(k, v)]

/-- Python `del d[k]`: remove the binding for `k`. -/
def pyDictDel {β : Type} (d : PyDict β) (k : String) : PyDict β :=
  d.filter (fun p => p.1 ≠ k)

/-- Python `s.startswith(pre)`, stated on the character lists so that it
reduces by computation (the built-in byte-level `String.startsWith` does
not). -/
def pyStartsWith (s pre : String) : Bool :=
  pre.data.isPrefixOf s.data

/-- The configuration a `SolrField` descriptor stores and that its
`__get__` returns as `{'type': ..., 'required': ..., 'multiValued': ...}`. -/
structure SolrField where
  type : String
  required : Bool
  multiValued : Bool
deriving DecidableEq, Repr

/-- A `SolrAnalyzer` class: a tokenizer class name and a filter list;
`as_solr_config` renders it as `{'tokenizer': {'class': tokenizer},
'filters': filters}`, an injective repackaging kept as this structure. -/
structure SolrAnalyzer where
  tokenizer : String
  filters : List String
deriving DecidableEq, Repr

/-- Values appearing in a field-type definition dict: strings (the `name`
and `class` entries) or a rendered analyzer configuration. -/
inductive FTVal where
  | str (s : String)
  | analyzerConf (a : SolrAnalyzer)
deriving DecidableEq, Repr

/-- A `SolrFieldType` descriptor: field class plus analyzer. -/
structure SolrFieldType where
  field_class : String
  analyzer : SolrAnalyzer
deriving DecidableEq, Repr

/-- `SolrFieldType.__get__`: the dict
`{'class': field_class, 'analyzer': analyzer.as_solr_config()}`. -/
def SolrFieldType.get (ft : SolrFieldType) : PyDict FTVal :=
  [("class", .str ft.field_class), ("analyzer", .analyzerConf ft.analyzer)]

/-- One remote schema-API call issued by `SolrSchema`, in issue order. -/
inductive SchemaCall where
  | listFields
  | addField (name : String) (opts : SolrField)
  | replaceField (name : String) (opts : SolrField)
  | deleteField (name : String)
  | listFieldTypes
  | addFieldType (opts : PyDict FTVal)
  | replaceFieldType (opts : PyDict FTVal)
deriving DecidableEq, Repr

/-- The `AttrDefault(int, {})` stats object: every counter defaults to 0.
`configure_solr_fields` touches `added`, `replaced`, `deleted`;
`configure_solr_fieldtypes` touches `added` and `updated`. -/
structure Stats where
  added : Nat := 0
  replaced : Nat := 0
  deleted : Nat := 0
  updated : Nat := 0
deriving DecidableEq, Repr

def Stats.zero : Stats := {}

/-- Componentwise sum, used to merge the counters of the two loops of
`configure_solr_fields` (the source threads one mutable stats object through
both loops; the loops increment disjoint counters). -/
def Stats.add (a b : Stats) : Stats :=
  ⟨a.added + b.added, a.replaced + b.replaced,
   a.deleted + b.deleted, a.updated + b.updated⟩

/-- First loop of `configure_solr_fields`: for each configured field name in
declaration order, `add_field` when absent from `current_fields`, otherwise
`replace_field`, incrementing `added` or `replaced`. -/
def fieldAddReplace (current_fields : List String) :
    List (String × SolrField) → Stats × List SchemaCall
  | [] => (Stats.zero, [])
  | (field_name, field_opts) :: rest =>
    let r := fieldAddReplace current_fields rest
    if field_name ∉ current_fields then
      ({ r.1 with added := r.1.added + 1 }, .addField field_name field_opts :: r.2)
    else
      ({ r.1 with replaced := r.1.replaced + 1 }, .replaceField field_name field_opts :: r.2)

/-- Second loop of `configure_solr_fields`: walk the remote listing, skip
the protected names (`id` and names starting with an underscore), and
`delete_field` every remaining name not in the configured set. -/
def fieldDeletes (configured_field_names : List String) :
    List String → Stats × List SchemaCall
  | [] => (Stats.zero, [])
  | field_name :: rest =>
    let r := fieldDeletes configured_field_names rest
    if field_name = "id" ∨ pyStartsWith field_name "_" then r
    else if field_name ∉ configured_field_names then
      ({ r.1 with deleted := r.1.deleted + 1 }, .deleteField field_name :: r.2)
    else r

/-- `SolrSchema.configure_solr_fields`: `configured` pairs each declared
field name (from `get_field_names`) with the dict its descriptor yields via
`getattr`; `current_fields` is the name listing from
`solr.schema.list_fields()`. Returns the final stats and the full trace of
remote calls, starting with the listing fetch. -/
def configure_solr_fields (configured : List (String × SolrField))
    (current_fields : List String) : Stats × List SchemaCall :=
  let r1 := fieldAddReplace current_fields configured
  let r2 := fieldDeletes (configured.map Prod.fst) current_fields
  (Stats.add r1.1 r2.1, SchemaCall.listFields :: (r1.2 ++ r2.2))

/-- The dict comprehension in `configure_solr_fieldtypes`:
`{ftype['name']: ftype for ftype in solr.schema.list_field_types()}`.
`ftypeName` extracts the `name` entry; a well-formed remote listing always
carries a string `name` (Python would raise `KeyError` otherwise, a case the
claims never exercise; the model defaults to `""` for totality). -/
def ftypeName (d : PyDict FTVal) : String :=
  match pyDictGet d "name" with
  | some (.str s) => s
  | _ => ""

def buildFieldTypeMapping (remote : List (PyDict FTVal)) : PyDict (PyDict FTVal) :=
  remote.foldl (fun m ftype => pyDictSet m (ftypeName ftype) ftype) []

/-- Loop body of `configure_solr_fieldtypes`, threading the (mutated)
`current_field_types` mapping. For each declared field type the declared
name is attached to its definition (`field_type_opts['name'] = field_type`);
when the name exists remotely the `name` key is deleted from the *stored
remote* definition (`del current_field_type_opts['name']`, a mutation of the
dict held in the mapping) and `replace_field_type(**field_type_opts)` is
issued with the declared definition, `name` key included; otherwise
`add_field_type(**field_type_opts)` is issued. -/
def fieldTypesLoop (current_field_types : PyDict (PyDict FTVal)) :
    List (String × SolrFieldType) → Stats × List SchemaCall × PyDict (PyDict FTVal)
  | [] => (Stats.zero, [], current_field_types)
  | (field_type, decl) :: rest =>
    let field_type_opts := pyDictSet decl.get "name" (.str field_type)
    if pyDictContains current_field_types field_type then
      let mutated := pyDictSet current_field_types field_type
        (pyDictDel ((pyDictGet current_field_types field_type).getD []) "name")
      let r := fieldTypesLoop mutated rest
      ({ r.1 with updated := r.1.updated + 1 },
       .replaceFieldType field_type_opts :: r.2.1, r.2.2)
    else
      let r := fieldTypesLoop current_field_types rest
      ({ r.1 with added := r.1.added + 1 },
       .addFieldType field_type_opts :: r.2.1, r.2.2)

/-- `SolrSchema.configure_solr_fieldtypes`: `configured` pairs each declared
field-type name (from `get_field_types`) with its descriptor; `remote` is
the listing from `solr.schema.list_field_types()`. When nothing is
configured the stats default is returned before any remote call; otherwise
the trace starts with the listing fetch. -/
def configure_solr_fieldtypes (configured : List (String × SolrFieldType))
    (remote : List (PyDict FTVal)) : Stats × List SchemaCall :=
  if configured.isEmpty then (Stats.zero, [])
  else
    let current_field_types := buildFieldTypeMapping remote
    let r := fieldTypesLoop current_field_types configured
    (r.1, SchemaCall.listFieldTypes :: r.2.1)

/-- `SolrSchema.get_configuration`: zero subclasses or more than one raise;
exactly one is returned (`subclasses[0]`). Errors are modelled as
`Except.error` carrying the message. -/
def get_configuration {α : Type} (subclasses : List α) : Except String α :=
  match subclasses with
  | [] => Except.error "No Solr schema configuration found"
  | [config] => Except.ok config
  | _ :: _ :: _ =>
    Except.error "Currently only one Solr schema configuration is supported"

/-- Python exception classes raised by the embedded code. -/
inductive PyError where
  | attributeError
deriving DecidableEq, Repr

/-- `SolrField.__set__`: the read-only descriptor raises `AttributeError`;
the pair returned is the outcome together with the descriptor state after
the attempted assignment. -/
def SolrField.set {β : Type} (descriptor : SolrField) (val : β) :
    Except PyError Unit × SolrField :=
  (Except.error PyError.attributeError, descriptor)

/-- `SolrFieldType.__set__`: same read-only enforcement as `SolrField`. -/
def SolrFieldType.set {β : Type} (descriptor : SolrFieldType) (val : β) :
    Except PyError Unit × SolrFieldType :=
  (Except.error PyError.attributeError, descriptor)

/-- Values held in the update handler's `params` dict: `None`, an int
(`commitWithin` milliseconds), a bool (`commit`), or a string. -/
inductive PVal where
  | none
  | nat (n : Nat)
  | bool (b : Bool)
  | str (s : String)
deriving DecidableEq, Repr

/-- Python truthiness for the values above (`if commit_within:`). -/
def pvTruthy : PVal → Bool
  | .none => false
  | .nat n => n != 0
  | .bool b => b
  | .str s => s != ""

/-- State of `parasol.solr.update.Update`: its default request parameters,
set in the constructor to `{'commitWithin': commit_within}`. -/
structure Update where
  params : PyDict PVal
deriving DecidableEq, Repr

/-- `Update.__init__`. -/
def Update.init (commit_within : PVal) : Update :=
  ⟨[("commitWithin", commit_within)]⟩

/-- A request the handler posts: the payload and the query parameters that
are actually sent. -/
structure UpdateRequest (α : Type) where
  data : α
  params : PyDict PVal
deriving DecidableEq, Repr

/-- `Update.index`: a local copy of `self.params` is taken and adjusted
(`commitWithin` overridden when a truthy `commit_within` is given; on
`commit` the copy drops `commitWithin` and gains `commit: True`), but the
source then posts with `params=self.params`, so the adjusted copy is
discarded and the request carries the stored defaults unchanged. The
returned pair is the request sent and the handler state afterwards. -/
def Update.index {α : Type} (u : Update) (docs : α) (commit : Bool)
    (commit_within : PVal) : UpdateRequest α × Update :=
  let params0 := u.params
  let params1 :=
    if pvTruthy commit_within then pyDictSet params0 "commitWithin" commit_within
    else params0
  let params2 :=
    if commit then pyDictSet (pyDictDel params1 "commitWithin") "commit" (.bool true)
    else params1
  let _localCopyDiscardedBySource := params2
  ({ data := docs, params := u.params }, u)

/-- Modelled from the spec: `parasol.indexing.Indexable` is absent from the
provided sources (only `parasol/tests/test_indexing.py` is present), so the
record contract is taken from the spec: `index_id` is item type and natural
id joined by a literal period, `index_data` a mapping with at least `id`
and `item_type`. -/
structure IndexableRecord where
  item_type : String
  natural_id : String
deriving DecidableEq, Repr

def IndexableRecord.index_id (r : IndexableRecord) : String :=
  r.item_type ++ "." ++ r.natural_id

def IndexableRecord.index_data (r : IndexableRecord) : PyDict PVal :=
  [("id", .str r.index_id), ("item_type", .str r.item_type)]

/-- Contiguous chunks of at most `c` elements, in stream order. With the
head taken first the recursion consumes at least one element per chunk, so
it also terminates when `c = 0` (the spec requires a positive chunk size;
the claims assume it). -/
def chunkList {α : Type} (c : Nat) : List α → List (List α)
  | [] => []
  | x :: xs => (x :: xs.take (c - 1)) :: chunkList c (xs.drop (c - 1))
termination_by l => l.length
decreasing_by simp [List.length_drop]; omega

/-- Observable outcome of one `index_items` run: the bulk submissions in
order, the number of progress-sink updates, and the returned count. -/
structure IndexRun where
  calls : List (List (PyDict PVal))
  progressUpdates : Nat
  total : Nat
deriving DecidableEq, Repr

/-- Modelled from the spec: `Indexable.index_items` partitions the stream
into chunks of at most `chunk_size`, submits each chunk's `index_data` list
as one bulk call, reports one progress update per chunk, and returns the
total number of records indexed across all chunks. -/
def index_items (items : List IndexableRecord) (chunk_size : Nat) : IndexRun :=
  let chunks := chunkList chunk_size items
  { calls := chunks.map (fun chunk => chunk.map IndexableRecord.index_data)
  , progressUpdates := chunks.length
  , total := (chunks.map List.length).sum }

/-- The remote field-name listing after one `configure_solr_fields` run:
kept are the protected names and the re-declared ones (replace keeps the
name); the declared names that were absent are added, in declaration
order. -/
def applyFieldsRun (configured : List (String × SolrField))
    (current : List String) : List String :=
  current.filter
      (fun n => decide (n = "id" ∨ pyStartsWith n "_" ∨ n ∈ configured.map Prod.fst)) ++
    (configured.map Prod.fst).filter (fun n => decide (n ∉ current))

/-- The remote field-type name set after one `configure_solr_fieldtypes`
run: nothing is ever deleted, replacing keeps the name, and the declared
names that were absent are added. -/
def applyFieldTypesRun (configured : List (String × SolrFieldType))
    (currentNames : List String) : List String :=
  currentNames ++ (configured.map Prod.fst).filter (fun n => decide (n ∉ currentNames))

/-- A sample field declaration (a `SolrStringField()` such as the schema
declarations the package is used with). -/
def exField : SolrField := ⟨"string", false, false⟩

/-- A sample analyzer, as in the package's usage examples. -/
def exAnalyzer : SolrAnalyzer :=
  ⟨"solr.WhitespaceTokenizerFactory", ["solr.LowerCaseFilterFactory"]⟩

/-- A sample field-type declaration. -/
def exFieldType : SolrFieldType := ⟨"solr.TextField", exAnalyzer⟩

/-- A sample indexable record (`SimpleIndexable` of the test suite). -/
def exRecord : IndexableRecord := ⟨"thing", "a"⟩

section FieldLemmas

/-- Counter bookkeeping of the add/replace loop: `added` counts the declared
names absent remotely, `replaced` the ones present, and the loop never
touches `deleted` or `updated`. -/
theorem fieldAddReplace_stats (cur : List String) (cfg : List (String × SolrField)) :
    (fieldAddReplace cur cfg).1.added = cfg.countP (fun p => decide (p.1 ∉ cur))
    ∧ (fieldAddReplace cur cfg).1.replaced = cfg.countP (fun p => decide (p.1 ∈ cur))
    ∧ (fieldAddReplace cur cfg).1.deleted = 0
    ∧ (fieldAddReplace cur cfg).1.updated = 0 := by
  induction cfg with
  | nil => simp [fieldAddReplace, Stats.zero]
  | cons hd tl ih =>
    obtain ⟨n, o⟩ := hd
    by_cases h : n ∈ cur <;>
      simp [fieldAddReplace, h, List.countP_cons, ih.1, ih.2.1, ih.2.2]

/-- A name not declared receives no add and no replace call from the loop. -/
theorem fieldAddReplace_count_zero (cur : List String) (cfg : List (String × SolrField))
    (n : String) (o : SolrField) (h : n ∉ cfg.map Prod.fst) :
    (fieldAddReplace cur cfg).2.count (SchemaCall.addField n o) = 0
    ∧ (fieldAddReplace cur cfg).2.count (SchemaCall.replaceField n o) = 0 := by
  induction cfg with
  | nil => simp [fieldAddReplace]
  | cons hd tl ih =>
    obtain ⟨m, p⟩ := hd
    simp only [List.map_cons, List.mem_cons, not_or] at h
    have ihz := ih h.2
    by_cases hm : m ∈ cur <;>
      simp [fieldAddReplace, hm, List.count_cons, ihz.1, ihz.2, Ne.symm h.1]

/-- Each declared field name receives exactly one add call when absent
remotely and exactly one replace call when present. -/
theorem fieldAddReplace_count_mem (cur : List String) (cfg : List (String × SolrField))
    (n : String) (o : SolrField) (hnd : (cfg.map Prod.fst).Nodup) (hm : (n, o) ∈ cfg) :
    (fieldAddReplace cur cfg).2.count (SchemaCall.addField n o)
      = (if n ∈ cur then 0 else 1)
    ∧ (fieldAddReplace cur cfg).2.count (SchemaCall.replaceField n o)
      = (if n ∈ cur then 1 else 0) := by
  induction cfg with
  | nil => simp at hm
  | cons hd tl ih =>
    obtain ⟨m, p⟩ := hd
    simp only [List.map_cons, List.nodup_cons] at hnd
    rcases List.mem_cons.mp hm with heq | htl
    · obtain ⟨rfl, rfl⟩ := Prod.mk.injEq .. ▸ heq
      have hz := fieldAddReplace_count_zero cur tl n o hnd.1
      by_cases hc : n ∈ cur <;>
        simp [fieldAddReplace, hc, List.count_cons, hz.1, hz.2]
    · have hnm : n ≠ m := by
        rintro rfl
        exact hnd.1 (List.mem_map.mpr ⟨(n, o), htl, rfl⟩)
      have ihr := ih hnd.2 htl
      by_cases hc : m ∈ cur <;>
        simp [fieldAddReplace, hc, List.count_cons, hnm, ihr.1, ihr.2]

/-- The add/replace loop issues no delete calls. -/
theorem fieldAddReplace_count_delete (cur : List String) (cfg : List (String × SolrField))
    (n : String) :
    (fieldAddReplace cur cfg).2.count (SchemaCall.deleteField n) = 0 := by
  induction cfg with
  | nil => simp [fieldAddReplace]
  | cons hd tl ih =>
    obtain ⟨m, p⟩ := hd
    by_cases hm : m ∈ cur <;> simp [fieldAddReplace, hm, List.count_cons, ih]

/-- Counter bookkeeping of the delete loop: `deleted` counts the remote
names that are neither protected nor declared; nothing else is touched. -/
theorem fieldDeletes_stats (names cur : List String) :
    (fieldDeletes names cur).1.deleted
      = cur.countP (fun n => decide (¬(n = "id" ∨ pyStartsWith n "_") ∧ n ∉ names))
    ∧ (fieldDeletes names cur).1.added = 0
    ∧ (fieldDeletes names cur).1.replaced = 0
    ∧ (fieldDeletes names cur).1.updated = 0 := by
  induction cur with
  | nil => simp [fieldDeletes, Stats.zero]
  | cons m tl ih =>
    by_cases hid : m = "id"
    · simp [fieldDeletes, hid, List.countP_cons, ih.1, ih.2.1, ih.2.2]
    · by_cases hus : pyStartsWith m "_"
      · simp [fieldDeletes, hid, hus, List.countP_cons, ih.1, ih.2.1, ih.2.2]
      · by_cases hmem : m ∈ names <;>
          simp [fieldDeletes, hid, hus, hmem, List.countP_cons, ih.1, ih.2.1, ih.2.2]

/-- The delete loop issues no add and no replace calls. -/
theorem fieldDeletes_count_addrep (names cur : List String) (n : String) (o : SolrField) :
    (fieldDeletes names cur).2.count (SchemaCall.addField n o) = 0
    ∧ (fieldDeletes names cur).2.count (SchemaCall.replaceField n o) = 0 := by
  induction cur with
  | nil => simp [fieldDeletes]
  | cons m tl ih =>
    by_cases hp : m = "id" ∨ pyStartsWith m "_"
    · simpa [fieldDeletes, hp] using ih
    · by_cases hmem : m ∈ names <;>
        simp [fieldDeletes, hp, hmem, List.count_cons, ih.1, ih.2]

/-- A protected name (`id` or a name starting with an underscore) is never
deleted, whatever the declared and remote sets are. -/
theorem fieldDeletes_count_protected (names cur : List String) (n : String)
    (hp : n = "id" ∨ pyStartsWith n "_") :
    (fieldDeletes names cur).2.count (SchemaCall.deleteField n) = 0 := by
  induction cur with
  | nil => simp [fieldDeletes]
  | cons m tl ih =>
    by_cases hm : m = "id" ∨ pyStartsWith m "_"
    · simpa [fieldDeletes, hm] using ih
    · have hne : m ≠ n := by rintro rfl; exact hm hp
      by_cases hmem : m ∈ names <;>
        simp [fieldDeletes, hm, hmem, List.count_cons, hne, ih]

/-- A name absent from the remote listing is never deleted. -/
theorem fieldDeletes_count_not_mem (names cur : List String) (n : String)
    (h : n ∉ cur) :
    (fieldDeletes names cur).2.count (SchemaCall.deleteField n) = 0 := by
  induction cur with
  | nil => simp [fieldDeletes]
  | cons m tl ih =>
    simp only [List.mem_cons, not_or] at h
    by_cases hm : m = "id" ∨ pyStartsWith m "_"
    · simpa [fieldDeletes, hm] using ih h.2
    · by_cases hmem : m ∈ names <;>
        simp [fieldDeletes, hm, hmem, List.count_cons, Ne.symm h.1, ih h.2]

/-- A remote, unprotected name receives exactly one delete call when not
declared, and none when declared. -/
theorem fieldDeletes_count_mem (names cur : List String) (n : String)
    (hnd : cur.Nodup) (hm : n ∈ cur) (hp : ¬(n = "id" ∨ pyStartsWith n "_")) :
    (fieldDeletes names cur).2.count (SchemaCall.deleteField n)
      = if n ∈ names then 0 else 1 := by
  induction cur with
  | nil => simp at hm
  | cons m tl ih =>
    simp only [List.nodup_cons] at hnd
    rcases List.mem_cons.mp hm with rfl | htl
    · have hz := fieldDeletes_count_not_mem names tl n hnd.1
      by_cases hmem : n ∈ names <;>
        simp [fieldDeletes, hp, hmem, List.count_cons, hz]
    · have hne : m ≠ n := by rintro rfl; exact hnd.1 htl
      by_cases hmp : m = "id" ∨ pyStartsWith m "_"
      · simpa [fieldDeletes, hmp] using ih hnd.2 htl
      · by_cases hmem : m ∈ names <;>
          simp [fieldDeletes, hmp, hmem, List.count_cons, hne, ih hnd.2 htl]

end FieldLemmas

/-- C1: for every declared field name, `configure_solr_fields` issues
exactly one `add_field` call if the name is absent from the remote field
listing and exactly one `replace_field` call if it is present; the returned
stats satisfy `added` = number of declared names absent remotely and
`replaced` = number of declared names present remotely. -/
theorem configure_solr_fields_add_replace_exact
    (configured : List (String × SolrField)) (current_fields : List String)
    (hnd : (configured.map Prod.fst).Nodup) :
    (∀ n o, (n, o) ∈ configured →
        ((configure_solr_fields configured current_fields).2.count
            (SchemaCall.addField n o) = if n ∈ current_fields then 0 else 1)
        ∧ ((configure_solr_fields configured current_fields).2.count
            (SchemaCall.replaceField n o) = if n ∈ current_fields then 1 else 0))
    ∧ (configure_solr_fields configured current_fields).1.added
        = configured.countP (fun p => decide (p.1 ∉ current_fields))
    ∧ (configure_solr_fields configured current_fields).1.replaced
        = configured.countP (fun p => decide (p.1 ∈ current_fields)) := by
  refine ⟨fun n o hm => ?_, ?_, ?_⟩
  · have hc := fieldAddReplace_count_mem current_fields configured n o hnd hm
    have hz := fieldDeletes_count_addrep (configured.map Prod.fst) current_fields n o
    constructor <;>
      simp [configure_solr_fields, List.count_cons, List.count_append,
        hc.1, hc.2, hz.1, hz.2]
  · have h1 := (fieldAddReplace_stats current_fields configured).1
    have h2 := (fieldDeletes_stats (configured.map Prod.fst) current_fields).2.1
    simp [configure_solr_fields, Stats.add, h1, h2]
  · have h1 := (fieldAddReplace_stats current_fields configured).2.1
    have h2 := (fieldDeletes_stats (configured.map Prod.fst) current_fields).2.2.1
    simp [configure_solr_fields, Stats.add, h1, h2]

/-- Witness for C1: two declared fields `a` (absent remotely) and `b`
(present remotely) against the remote listing `[b, id]`. -/
theorem configure_solr_fields_add_replace_exact_witness :
    ((([("a", exField), ("b", exField)] : List (String × SolrField)).map Prod.fst).Nodup)
    ∧ ((configure_solr_fields [("a", exField), ("b", exField)] ["b", "id"]).2.count
        (SchemaCall.addField "a" exField) = if "a" ∈ ["b", "id"] then 0 else 1)
    ∧ ((configure_solr_fields [("a", exField), ("b", exField)] ["b", "id"]).2.count
        (SchemaCall.replaceField "b" exField) = if "b" ∈ ["b", "id"] then 1 else 0)
    ∧ (configure_solr_fields [("a", exField), ("b", exField)] ["b", "id"]).1.added
        = ([("a", exField), ("b", exField)] : List (String × SolrField)).countP
            (fun p => decide (p.1 ∉ ["b", "id"])) := by
  have h := configure_solr_fields_add_replace_exact
    [("a", exField), ("b", exField)] ["b", "id"] (by decide)
  exact ⟨by decide, (h.1 "a" exField (by decide)).1, (h.1 "b" exField (by decide)).2,
    h.2.1⟩

/-- C2: every remote field name outside the declared set receives exactly
one `delete_field` call and is counted in `deleted`, except the literal
name `id` and names beginning with an underscore, which are never deleted
regardless of declared-set membership. -/
theorem configure_solr_fields_delete_exact
    (configured : List (String × SolrField)) (current_fields : List String)
    (hnd : current_fields.Nodup) :
    (∀ n, (n = "id" ∨ pyStartsWith n "_") →
        (configure_solr_fields configured current_fields).2.count
          (SchemaCall.deleteField n) = 0)
    ∧ (∀ n, n ∈ current_fields → ¬(n = "id" ∨ pyStartsWith n "_") →
        (configure_solr_fields configured current_fields).2.count
            (SchemaCall.deleteField n)
          = if n ∈ configured.map Prod.fst then 0 else 1)
    ∧ (configure_solr_fields configured current_fields).1.deleted
        = current_fields.countP
            (fun n => decide (¬(n = "id" ∨ pyStartsWith n "_")
              ∧ n ∉ configured.map Prod.fst)) := by
  refine ⟨fun n hp => ?_, fun n hm hp => ?_, ?_⟩
  · have h1 := fieldAddReplace_count_delete current_fields configured n
    have h2 := fieldDeletes_count_protected (configured.map Prod.fst) current_fields n hp
    simp [configure_solr_fields, List.count_cons, List.count_append, h1, h2]
  · have h1 := fieldAddReplace_count_delete current_fields configured n
    have h2 := fieldDeletes_count_mem (configured.map Prod.fst) current_fields n hnd hm hp
    simp [configure_solr_fields, List.count_cons, List.count_append, h1, h2]
  · have h1 := (fieldAddReplace_stats current_fields configured).2.2.1
    have h2 := (fieldDeletes_stats (configured.map Prod.fst) current_fields).1
    simp [configure_solr_fields, Stats.add, h1, h2]

/-- Witness for C2: remote listing `[b, id, _version_, old]` against the
declared set `{b}`: `old` is deleted once, `id` and `_version_` never. -/
theorem configure_solr_fields_delete_exact_witness :
    (["b", "id", "_version_", "old"] : List String).Nodup
    ∧ ((configure_solr_fields [("b", exField)] ["b", "id", "_version_", "old"]).2.count
        (SchemaCall.deleteField "_version_") = 0)
    ∧ ((configure_solr_fields [("b", exField)] ["b", "id", "_version_", "old"]).2.count
        (SchemaCall.deleteField "old")
        = if "old" ∈ ([("b", exField)] : List (String × SolrField)).map Prod.fst
          then 0 else 1)
    ∧ (configure_solr_fields [("b", exField)] ["b", "id", "_version_", "old"]).1.deleted
        = (["b", "id", "_version_", "old"] : List String).countP
            (fun n => decide (¬(n = "id" ∨ pyStartsWith n "_")
              ∧ n ∉ ([("b", exField)] : List (String × SolrField)).map Prod.fst)) := by
  have h := configure_solr_fields_delete_exact
    [("b", exField)] ["b", "id", "_version_", "old"] (by decide)
  exact ⟨by decide, h.1 "_version_" (by decide), h.2.1 "old" (by decide) (by decide),
    h.2.2⟩

section DictLemmas

/-- Unfolding of the membership test on a nonempty dict. -/
theorem pyDictContains_cons {β : Type} (a : String × β) (l : PyDict β) (x : String) :
    pyDictContains (a :: l) x = (decide (a.1 = x) || pyDictContains l x) := rfl

/-- Overwriting an existing key in place changes no key's presence. -/
theorem pyDictContains_update {β : Type} (m : PyDict β) (k x : String) (v : β) :
    pyDictContains (m.map (fun p => if p.1 = k then (k, v) else p)) x
      = pyDictContains m x := by
  induction m with
  | nil => rfl
  | cons a tl ih =>
    by_cases ha : a.1 = k <;>
      simp [List.map_cons, pyDictContains_cons, ha, ih]

/-- `pyDictSet` on a key already present changes no key's presence. -/
theorem pyDictContains_set_of_contains {β : Type} (m : PyDict β) (k x : String) (v : β)
    (h : pyDictContains m k = true) :
    pyDictContains (pyDictSet m k v) x = pyDictContains m x := by
  rw [pyDictSet, if_pos h, pyDictContains_update]

/-- After `pyDictSet` the written key is present. -/
theorem pyDictContains_set_self {β : Type} (d : PyDict β) (k : String) (v : β) :
    pyDictContains (pyDictSet d k v) k = true := by
  by_cases h : pyDictContains d k
  · rw [pyDictSet, if_pos h, pyDictContains_update]; exact h
  · rw [pyDictSet, if_neg h]
    simp [pyDictContains, List.any_append]

end DictLemmas

section FieldTypeLemmas

/-- The definition sent with a field-type call carries the declared name
under the `name` key (the declared dict has only `class` and `analyzer`, so
attaching the name appends it). -/
theorem ftOpts_getName (n : String) (d : SolrFieldType) :
    pyDictGet (pyDictSet d.get "name" (FTVal.str n)) "name" = some (FTVal.str n) := by
  simp [SolrFieldType.get, pyDictSet, pyDictContains, pyDictGet]

/-- Two field-type payloads are equal only if their attached names are. -/
theorem ftOpts_inj {n k : String} {d e : SolrFieldType}
    (h : pyDictSet d.get "name" (FTVal.str n) = pyDictSet e.get "name" (FTVal.str k)) :
    n = k := by
  have h1 := ftOpts_getName n d
  rw [h, ftOpts_getName k e] at h1
  simpa using h1.symm

/-- Counter bookkeeping of the field-type loop: `updated` counts the
declared names present in the mapping, `added` the absent ones; the loop's
mapping mutations never change which keys are present, so the counts are
stated against the initial mapping. -/
theorem fieldTypesLoop_stats (cfg : List (String × SolrFieldType)) :
    ∀ (m : PyDict (PyDict FTVal)),
      (fieldTypesLoop m cfg).1.updated
        = (cfg.map Prod.fst).countP (fun n => pyDictContains m n)
      ∧ (fieldTypesLoop m cfg).1.added
        = (cfg.map Prod.fst).countP (fun n => !pyDictContains m n)
      ∧ (fieldTypesLoop m cfg).1.replaced = 0
      ∧ (fieldTypesLoop m cfg).1.deleted = 0 := by
  induction cfg with
  | nil => intro m; simp [fieldTypesLoop, Stats.zero]
  | cons hd tl ih =>
    intro m
    obtain ⟨n, d⟩ := hd
    by_cases hc : pyDictContains m n
    · have hihm := ih (pyDictSet m n (pyDictDel ((pyDictGet m n).getD []) "name"))
      have hpt : ∀ x, pyDictContains
          (pyDictSet m n (pyDictDel ((pyDictGet m n).getD []) "name")) x
            = pyDictContains m x :=
        fun x => pyDictContains_set_of_contains m n x _ hc
      have e1 : (tl.map Prod.fst).countP
            (fun x => pyDictContains
              (pyDictSet m n (pyDictDel ((pyDictGet m n).getD []) "name")) x)
          = (tl.map Prod.fst).countP (fun x => pyDictContains m x) :=
        List.countP_congr (fun x _ => by rw [hpt x])
      have e2 : (tl.map Prod.fst).countP
            (fun x => !pyDictContains
              (pyDictSet m n (pyDictDel ((pyDictGet m n).getD []) "name")) x)
          = (tl.map Prod.fst).countP (fun x => !pyDictContains m x) :=
        List.countP_congr (fun x _ => by rw [hpt x])
      simp [fieldTypesLoop, hc, List.countP_cons, hihm.1, hihm.2.1, hihm.2.2.1,
        hihm.2.2.2, e1, e2]
    · have hihm := ih m
      simp [fieldTypesLoop, hc, List.countP_cons, hihm.1, hihm.2.1, hihm.2.2.1,
        hihm.2.2.2]

/-- A name not declared receives no replace-field-type call. -/
theorem fieldTypesLoop_count_zero (n : String) (d : SolrFieldType)
    (cfg : List (String × SolrFieldType)) (h : n ∉ cfg.map Prod.fst) :
    ∀ m, (fieldTypesLoop m cfg).2.1.count
        (SchemaCall.replaceFieldType (pyDictSet d.get "name" (FTVal.str n))) = 0 := by
  induction cfg with
  | nil => intro m; simp [fieldTypesLoop]
  | cons hd tl ih =>
    intro m
    obtain ⟨k, e⟩ := hd
    simp only [List.map_cons, List.mem_cons, not_or] at h
    have hne : SchemaCall.replaceFieldType (pyDictSet e.get "name" (FTVal.str k))
        ≠ SchemaCall.replaceFieldType (pyDictSet d.get "name" (FTVal.str n)) := by
      intro hEq
      injection hEq with hpl
      exact h.1 (ftOpts_inj hpl).symm
    by_cases hc : pyDictContains m k <;>
      simp [fieldTypesLoop, hc, List.count_cons, hne, ih h.2]

/-- Each declared field-type name present in the mapping receives exactly
one replace-field-type call carrying its name-attached definition. -/
theorem fieldTypesLoop_count_mem (n : String) (d : SolrFieldType)
    (cfg : List (String × SolrFieldType)) (hnd : (cfg.map Prod.fst).Nodup)
    (hm : (n, d) ∈ cfg) :
    ∀ m, (fieldTypesLoop m cfg).2.1.count
        (SchemaCall.replaceFieldType (pyDictSet d.get "name" (FTVal.str n)))
      = if pyDictContains m n then 1 else 0 := by
  induction cfg with
  | nil => simp at hm
  | cons hd tl ih =>
    intro m
    obtain ⟨k, e⟩ := hd
    simp only [List.map_cons, List.nodup_cons] at hnd
    rcases List.mem_cons.mp hm with heq | htl
    · obtain ⟨rfl, rfl⟩ := Prod.mk.injEq .. ▸ heq
      have hz := fieldTypesLoop_count_zero n d tl hnd.1
      by_cases hc : pyDictContains m n <;>
        simp [fieldTypesLoop, hc, List.count_cons, hz]
    · have hnk : n ≠ k := by
        rintro rfl
        exact hnd.1 (List.mem_map.mpr ⟨(n, d), htl, rfl⟩)
      have hne : SchemaCall.replaceFieldType (pyDictSet e.get "name" (FTVal.str k))
          ≠ SchemaCall.replaceFieldType (pyDictSet d.get "name" (FTVal.str n)) := by
        intro hEq
        injection hEq with hpl
        exact hnk (ftOpts_inj hpl).symm
      by_cases hc : pyDictContains m k
      · have hpt := pyDictContains_set_of_contains m k n
          (pyDictDel ((pyDictGet m k).getD []) "name") hc
        simp [fieldTypesLoop, hc, List.count_cons, hne, ih hnd.2 htl, hpt]
      · simp [fieldTypesLoop, hc, List.count_cons, hne, ih hnd.2 htl]

end FieldTypeLemmas

/-- C3 counterexample: for a declared field type `text_en` that exists
remotely, the one replace-field-type call issued carries the declared
definition with the `name` key still present, and no call carrying the
name-stripped definition is ever issued: the name is not removed before the
replace call (the source instead deletes `name` from the stored remote
definition). -/
theorem configure_solr_fieldtypes_name_not_stripped_cex :
    ((configure_solr_fieldtypes [("text_en", exFieldType)]
        [[("name", FTVal.str "text_en"), ("class", FTVal.str "solr.TextField")]]).2.count
      (SchemaCall.replaceFieldType
        (pyDictSet exFieldType.get "name" (FTVal.str "text_en"))) = 1)
    ∧ pyDictContains
        (pyDictSet exFieldType.get "name" (FTVal.str "text_en")) "name" = true
    ∧ ((configure_solr_fieldtypes [("text_en", exFieldType)]
        [[("name", FTVal.str "text_en"), ("class", FTVal.str "solr.TextField")]]).2.count
      (SchemaCall.replaceFieldType
        (pyDictDel (pyDictSet exFieldType.get "name" (FTVal.str "text_en")) "name"))
        = 0) := by
  decide

/-- C3 as amended: when a declared field type's name exists in the remote
mapping, exactly one replace-field-type call is issued and its definition is
the declared one with the `name` key attached and retained (not stripped),
and `updated` counts exactly the declared names present remotely. -/
theorem configure_solr_fieldtypes_replace_keeps_name
    (configured : List (String × SolrFieldType)) (remote : List (PyDict FTVal))
    (hnd : (configured.map Prod.fst).Nodup) :
    (∀ n d, (n, d) ∈ configured →
        pyDictContains (buildFieldTypeMapping remote) n = true →
        ((configure_solr_fieldtypes configured remote).2.count
            (SchemaCall.replaceFieldType (pyDictSet d.get "name" (FTVal.str n))) = 1
          ∧ pyDictContains (pyDictSet d.get "name" (FTVal.str n)) "name" = true))
    ∧ (configure_solr_fieldtypes configured remote).1.updated
        = (configured.map Prod.fst).countP
            (fun n => pyDictContains (buildFieldTypeMapping remote) n) := by
  constructor
  · intro n d hm hc
    have hcount := fieldTypesLoop_count_mem n d configured hnd hm
      (buildFieldTypeMapping remote)
    have hnonempty : configured.isEmpty = false := by
      cases configured
      · simp at hm
      · rfl
    refine ⟨?_, pyDictContains_set_self d.get "name" (FTVal.str n)⟩
    simp [configure_solr_fieldtypes, hnonempty, List.count_cons, hcount, hc]
  · cases hcfg : configured with
    | nil => simp [configure_solr_fieldtypes, Stats.zero]
    | cons hd tl =>
      have hstats := fieldTypesLoop_stats (hd :: tl) (buildFieldTypeMapping remote)
      simp [configure_solr_fieldtypes, hstats.1]

/-- Witness for the amended C3: declared `text_en` present remotely. -/
theorem configure_solr_fieldtypes_replace_keeps_name_witness :
    ((([("text_en", exFieldType)] : List (String × SolrFieldType)).map Prod.fst).Nodup)
    ∧ pyDictContains
        (buildFieldTypeMapping
          [[("name", FTVal.str "text_en"), ("class", FTVal.str "solr.TextField")]])
        "text_en" = true
    ∧ ((configure_solr_fieldtypes [("text_en", exFieldType)]
        [[("name", FTVal.str "text_en"), ("class", FTVal.str "solr.TextField")]]).1.updated
      = (([("text_en", exFieldType)] : List (String × SolrFieldType)).map Prod.fst).countP
          (fun n => pyDictContains
            (buildFieldTypeMapping
              [[("name", FTVal.str "text_en"), ("class", FTVal.str "solr.TextField")]]) n)) := by
  refine ⟨by decide, by decide, ?_⟩
  exact (configure_solr_fieldtypes_replace_keeps_name [("text_en", exFieldType)]
    [[("name", FTVal.str "text_en"), ("class", FTVal.str "solr.TextField")]] (by decide)).2

/-- C7: with zero declared field types, `configure_solr_fieldtypes` returns
all-zero stats and issues no remote call at all; in particular the remote
field-type listing is never fetched. -/
theorem configure_solr_fieldtypes_empty_noop (remote : List (PyDict FTVal)) :
    configure_solr_fieldtypes [] remote = (Stats.zero, [])
    ∧ SchemaCall.listFieldTypes ∉ (configure_solr_fieldtypes [] remote).2 := by
  exact ⟨rfl, by simp [configure_solr_fieldtypes]⟩

section IdempotenceLemmas

/-- Unfolding lemma for `applyFieldsRun`. -/
theorem applyFieldsRun_def (configured : List (String × SolrField))
    (current : List String) :
    applyFieldsRun configured current
      = current.filter
          (fun n => decide (n = "id" ∨ pyStartsWith n "_" ∨ n ∈ configured.map Prod.fst))
        ++ (configured.map Prod.fst).filter (fun n => decide (n ∉ current)) := rfl

/-- Every name surviving a run is protected or declared. -/
theorem applyFieldsRun_keeps (configured : List (String × SolrField))
    (current : List String) (n : String) (h : n ∈ applyFieldsRun configured current) :
    n = "id" ∨ pyStartsWith n "_" ∨ n ∈ configured.map Prod.fst := by
  rcases List.mem_append.mp h with hl | hr
  · exact of_decide_eq_true (List.mem_filter.mp hl).2
  · exact Or.inr (Or.inr (List.mem_filter.mp hr).1)

/-- Every declared name is present after a run. -/
theorem mem_applyFieldsRun_of_configured (configured : List (String × SolrField))
    (current : List String) (n : String) (h : n ∈ configured.map Prod.fst) :
    n ∈ applyFieldsRun configured current := by
  by_cases hc : n ∈ current
  · exact List.mem_append.mpr (Or.inl (List.mem_filter.mpr ⟨hc, by simp [h]⟩))
  · exact List.mem_append.mpr (Or.inr (List.mem_filter.mpr ⟨h, by simp [hc]⟩))

/-- The remote field listing is a fixpoint after one reconciliation run. -/
theorem applyFieldsRun_fixpoint (configured : List (String × SolrField))
    (current : List String) :
    applyFieldsRun configured (applyFieldsRun configured current)
      = applyFieldsRun configured current := by
  have h1 : (applyFieldsRun configured current).filter
      (fun n => decide (n = "id" ∨ pyStartsWith n "_" ∨ n ∈ configured.map Prod.fst))
      = applyFieldsRun configured current :=
    List.filter_eq_self.mpr
      (fun a ha => decide_eq_true (applyFieldsRun_keeps configured current a ha))
  have h2 : (configured.map Prod.fst).filter
      (fun n => decide (n ∉ applyFieldsRun configured current)) = [] :=
    List.filter_eq_nil_iff.mpr (fun a ha => by
      simp [mem_applyFieldsRun_of_configured configured current a ha])
  rw [applyFieldsRun_def configured (applyFieldsRun configured current), h1, h2,
    List.append_nil]

/-- Unfolding lemma for `applyFieldTypesRun`. -/
theorem applyFieldTypesRun_def (configured : List (String × SolrFieldType))
    (currentNames : List String) :
    applyFieldTypesRun configured currentNames
      = currentNames
        ++ (configured.map Prod.fst).filter (fun n => decide (n ∉ currentNames)) := rfl

/-- The remote field-type name set is a fixpoint after one run. -/
theorem applyFieldTypesRun_fixpoint (configured : List (String × SolrFieldType))
    (names0 : List String) :
    applyFieldTypesRun configured (applyFieldTypesRun configured names0)
      = applyFieldTypesRun configured names0 := by
  have h2 : (configured.map Prod.fst).filter
      (fun n => decide (n ∉ applyFieldTypesRun configured names0)) = [] :=
    List.filter_eq_nil_iff.mpr (fun a ha => by
      by_cases hc : a ∈ names0
      · simp [applyFieldTypesRun, hc]
      · simp [applyFieldTypesRun, hc, ha])
  rw [applyFieldTypesRun_def configured (applyFieldTypesRun configured names0), h2,
    List.append_nil]

end IdempotenceLemmas

/-- C6 counterexample: with one declared field `a` (and one declared field
type `t`) and an initially empty remote schema, the first run reports an
addition while the second run — seeing the first run's mutations — reports
a replacement (an update for field types), so the two runs' stats differ
for fields and for field types alike. -/
theorem reconcile_twice_stats_cex :
    (configure_solr_fields [("a", exField)] []).1
      ≠ (configure_solr_fields [("a", exField)]
          (applyFieldsRun [("a", exField)] [])).1
    ∧ (configure_solr_fieldtypes [("t", exFieldType)] []).1
      ≠ (configure_solr_fieldtypes [("t", exFieldType)]
          [pyDictSet exFieldType.get "name" (FTVal.str "t")]).1 := by
  decide

/-- C6 as amended: the first and second runs need not report equal stats
(names the first run adds or deletes are counted differently by the
second); instead the remote field listing after the second run equals the
listing after the first run, so every run after the first produces the same
stats and trace, and likewise the remote field-type name set after a second
run equals the set after the first run. -/
theorem reconcile_second_run_fixpoint
    (cfgF : List (String × SolrField)) (cfgT : List (String × SolrFieldType))
    (fields0 ftnames0 : List String) :
    applyFieldsRun cfgF (applyFieldsRun cfgF fields0) = applyFieldsRun cfgF fields0
    ∧ applyFieldTypesRun cfgT (applyFieldTypesRun cfgT ftnames0)
        = applyFieldTypesRun cfgT ftnames0
    ∧ configure_solr_fields cfgF (applyFieldsRun cfgF (applyFieldsRun cfgF fields0))
        = configure_solr_fields cfgF (applyFieldsRun cfgF fields0) := by
  refine ⟨applyFieldsRun_fixpoint cfgF fields0,
    applyFieldTypesRun_fixpoint cfgT ftnames0, ?_⟩
  rw [applyFieldsRun_fixpoint cfgF fields0]

section ChunkLemmas

/-- Concatenating the chunks restores the stream (fuel-indexed form). -/
theorem chunkList_flatten_aux {α : Type} (c : Nat) :
    ∀ (fuel : Nat) (l : List α), l.length ≤ fuel → (chunkList c l).flatten = l := by
  intro fuel
  induction fuel with
  | zero =>
    intro l h
    have hnil : l = [] := List.eq_nil_of_length_eq_zero (Nat.le_zero.mp h)
    subst hnil
    simp [chunkList]
  | succ fuel ih =>
    intro l h
    cases l with
    | nil => simp [chunkList]
    | cons x xs =>
      simp only [List.length_cons, Nat.succ_le_succ_iff] at h
      simp only [chunkList, List.flatten_cons]
      rw [ih (xs.drop (c - 1)) (by simp [List.length_drop]; omega)]
      simp [List.cons_append, List.take_append_drop]

/-- Concatenating the chunks restores the stream. -/
theorem chunkList_flatten {α : Type} (c : Nat) (l : List α) :
    (chunkList c l).flatten = l :=
  chunkList_flatten_aux c l.length l le_rfl

/-- Every chunk holds at most `c` elements (fuel-indexed form). -/
theorem chunkList_chunk_le_aux {α : Type} (c : Nat) (hc : 0 < c) :
    ∀ (fuel : Nat) (l : List α), l.length ≤ fuel →
      ∀ ch ∈ chunkList c l, ch.length ≤ c := by
  intro fuel
  induction fuel with
  | zero =>
    intro l h
    have hnil : l = [] := List.eq_nil_of_length_eq_zero (Nat.le_zero.mp h)
    subst hnil
    simp [chunkList]
  | succ fuel ih =>
    intro l h
    cases l with
    | nil => simp [chunkList]
    | cons x xs =>
      simp only [List.length_cons, Nat.succ_le_succ_iff] at h
      simp only [chunkList, List.mem_cons]
      rintro ch (rfl | hch)
      · simp only [List.length_cons, List.length_take]
        omega
      · exact ih (xs.drop (c - 1)) (by simp [List.length_drop]; omega) ch hch

/-- Every chunk holds at most `c` elements. -/
theorem chunkList_chunk_le {α : Type} (c : Nat) (hc : 0 < c) (l : List α) :
    ∀ ch ∈ chunkList c l, ch.length ≤ c :=
  chunkList_chunk_le_aux c hc l.length l le_rfl

/-- The number of chunks is the ceiling of `length / c` (fuel-indexed). -/
theorem chunkList_count_aux {α : Type} (c : Nat) (hc : 0 < c) :
    ∀ (fuel : Nat) (l : List α), l.length ≤ fuel →
      (chunkList c l).length = (l.length + c - 1) / c := by
  intro fuel
  induction fuel with
  | zero =>
    intro l h
    have hnil : l = [] := List.eq_nil_of_length_eq_zero (Nat.le_zero.mp h)
    subst hnil
    simp [chunkList]
    rw [Nat.div_eq_of_lt (by omega)]
  | succ fuel ih =>
    intro l h
    cases l with
    | nil =>
      simp [chunkList]
      rw [Nat.div_eq_of_lt (by omega)]
    | cons x xs =>
      simp only [List.length_cons, Nat.succ_le_succ_iff] at h
      simp only [chunkList, List.length_cons]
      rw [ih (xs.drop (c - 1)) (by simp [List.length_drop]; omega)]
      simp only [List.length_drop]
      have hnum : xs.length + 1 + c - 1 = xs.length + c := by omega
      rw [hnum, Nat.add_div_right xs.length hc]
      by_cases hs : xs.length ≤ c - 1
      · have h0 : xs.length - (c - 1) + c - 1 = c - 1 := by omega
        rw [h0, Nat.div_eq_of_lt (by omega), Nat.div_eq_of_lt (by omega)]
      · have h0 : xs.length - (c - 1) + c - 1 = xs.length := by omega
        rw [h0]

/-- The number of chunks is the ceiling of `length / c`. -/
theorem chunkList_count {α : Type} (c : Nat) (hc : 0 < c) (l : List α) :
    (chunkList c l).length = (l.length + c - 1) / c :=
  chunkList_count_aux c hc l.length l le_rfl

end ChunkLemmas

/-- C5 (modelled from the spec, the indexing module being absent from the
sources): on `n` items with positive chunk size `c`, `index_items` issues
exactly `ceil(n / c)` bulk calls, each of at most `c` documents; the calls
concatenate to the stream's `index_data` documents in order; the returned
count is `n`; and the progress sink is updated once per chunk. -/
theorem index_items_chunks_exact (items : List IndexableRecord) (c : Nat)
    (hc : 0 < c) :
    (index_items items c).calls.length = (items.length + c - 1) / c
    ∧ (∀ call ∈ (index_items items c).calls, call.length ≤ c)
    ∧ (index_items items c).calls.flatten = items.map IndexableRecord.index_data
    ∧ (index_items items c).total = items.length
    ∧ (index_items items c).progressUpdates = (items.length + c - 1) / c := by
  have hcnt := chunkList_count c hc items
  have hflat := chunkList_flatten c items
  have hsz := chunkList_chunk_le c hc items
  refine ⟨?_, ?_, ?_, ?_, ?_⟩
  · simp [index_items, hcnt]
  · intro call hcall
    simp only [index_items, List.mem_map] at hcall
    obtain ⟨ch, hch, rfl⟩ := hcall
    simpa using hsz ch hch
  · simp only [index_items]
    rw [← List.map_flatten, hflat]
  · simp only [index_items]
    rw [← List.length_flatten, hflat]
  · simp [index_items, hcnt]

/-- Witness for C5: the test suite's scenario, ten records and chunk size
six: two calls, count ten, two progress updates. -/
theorem index_items_chunks_exact_witness :
    0 < 6
    ∧ (index_items (List.replicate 10 exRecord) 6).calls.length = 2
    ∧ (index_items (List.replicate 10 exRecord) 6).total = 10
    ∧ (index_items (List.replicate 10 exRecord) 6).progressUpdates = 2 := by
  have h := index_items_chunks_exact (List.replicate 10 exRecord) 6 (by decide)
  refine ⟨by decide, ?_, ?_, ?_⟩
  · simpa using h.1
  · simpa using h.2.2.2.1
  · simpa using h.2.2.2.2

/-- C4 (records the source defect): with a stored default of
`commitWithin = 10`, calling `index` with `commit=True` sends a request
whose parameters still carry `commitWithin` and never carry `commit` — the
method computes a corrected local parameter dict (dropping `commitWithin`,
adding `commit`) but then posts with `params=self.params`, discarding it. -/
theorem update_index_commit_bug :
    (((Update.init (PVal.nat 10)).index () true PVal.none).1.params
        = [("commitWithin", PVal.nat 10)])
    ∧ pyDictContains
        (((Update.init (PVal.nat 10)).index () true PVal.none).1.params)
        "commit" = false := by
  decide

/-- C10: `Update.index` never modifies the stored defaults `self.params`
(the method works on `self.params.copy()`), so every call starts from the
constructor's `commitWithin` default. -/
theorem update_index_defaults_unchanged {α : Type} (u : Update) (docs : α)
    (commit : Bool) (commit_within : PVal) :
    ((u.index docs commit commit_within).2).params = u.params := rfl

/-- C8: `get_configuration` fails when zero or more than one configuration
subclass is registered, and returns the unique subclass when exactly one
is. -/
theorem get_configuration_unique {α : Type} (subclasses : List α) :
    ((subclasses.length = 0 ∨ 1 < subclasses.length) →
        ∃ msg, get_configuration subclasses = Except.error msg)
    ∧ ∀ config, subclasses = [config] →
        get_configuration subclasses = Except.ok config := by
  constructor
  · intro h
    match subclasses, h with
    | [], _ => exact ⟨_, rfl⟩
    | _ :: _ :: _, _ => exact ⟨_, rfl⟩
    | [c], h => simp at h
  · rintro config rfl
    rfl

/-- Witness for C8: the empty registry errors, a two-element registry
errors, and a singleton yields its element. -/
theorem get_configuration_unique_witness :
    (∃ msg, get_configuration ([] : List Nat) = Except.error msg)
    ∧ (∃ msg, get_configuration [3, 4] = Except.error msg)
    ∧ get_configuration [7] = Except.ok 7 :=
  ⟨(get_configuration_unique ([] : List Nat)).1 (Or.inl rfl),
   (get_configuration_unique [3, 4]).1 (Or.inr (by simp)),
   (get_configuration_unique [7]).2 7 rfl⟩

/-- C9: assignment to a declared `SolrField` or `SolrFieldType` descriptor
raises `AttributeError` and leaves the stored configuration unchanged. -/
theorem descriptor_set_raises {β γ : Type} (f : SolrField) (ft : SolrFieldType)
    (v : β) (w : γ) :
    (SolrField.set f v).1 = Except.error PyError.attributeError
    ∧ (SolrField.set f v).2 = f
    ∧ (SolrFieldType.set ft w).1 = Except.error PyError.attributeError
    ∧ (SolrFieldType.set ft w).2 = ft :=
  ⟨rfl, rfl, rfl, rfl⟩

end Parasol
